import Mathlib

/-!
Verification of the cctasks task/group store against its specification.

The Go source under `internal/data/task.go`, `internal/data/group.go` and
`internal/model/tasks.go` is shallowly embedded below.  Conventions used
throughout the embedding:

* Go `int` is modelled by `Int` (overflow is out of scope for the claims).
* A Go `[]string` field that the code compares against `nil` is modelled by
  `Option (List String)`: `none` is the nil slice, `some l` a non-nil slice.
* Go `map[string]interface{}` metadata is modelled by an association list of
  `String × MetaValue`, `MetaValue` recording only whether a value is a string
  (the one shape the code inspects).
* File-system effects are made explicit: directory listings become values,
  and the outcome of `os.Remove` is an explicit parameter of `DeleteTask`.
* `sort.Slice` (an unspecified-order comparison sort) is modelled by
  `List.insertionSort`, a deterministic comparison sort producing a sorted
  permutation; claims that depend on tie-breaking are flagged where proved.
* `strconv.Atoi` / `strconv.Itoa` are modelled by `goAtoi` / `goItoa`.
-/

namespace Cctasks

/-! ### Small generic helpers -/

/-- Character-list prefix test, mirroring byte-prefix comparison. -/
def leadMatch : List Char → List Char → Bool
  | [], _ => true
  | _ :: _, [] => false
  | a :: as, b :: bs => a = b && leadMatch as bs

/-- `containsCh needle hay`: does `needle` occur contiguously inside `hay`?
Models Go `strings.Contains` at rune granularity. -/
def containsCh (needle : List Char) : List Char → Bool
  | [] => leadMatch needle []
  | c :: t => leadMatch needle (c :: t) || containsCh needle t

/-- Go `strings.Contains(s, substr)`. -/
def goContains (s substr : String) : Bool :=
  containsCh substr.data s.data

/-- Go `strings.HasPrefix(s, pre)` at character level. -/
def goHasLead (s pre : String) : Bool :=
  leadMatch pre.data s.data

/-- Go `strings.HasSuffix(s, suffix)` at character level. -/
def goHasTail (s suffix : String) : Bool :=
  leadMatch suffix.data.reverse s.data.reverse

/-- Numeric value of a decimal digit character. -/
def digitVal (c : Char) : Nat := c.toNat - 48

/-- Parse a non-empty all-digit character list as a natural number. -/
def parseDigits (cs : List Char) : Option Nat :=
  if cs = [] then none
  else if cs.all Char.isDigit then
    some (cs.foldl (fun acc c => acc * 10 + digitVal c) 0)
  else none

/-- Go `strconv.Atoi`: optional sign followed by at least one digit.
(The claims never exercise machine-word overflow, so the value is exact.) -/
def goAtoi (s : String) : Option Int :=
  match s.data with
  | '-' :: rest => (parseDigits rest).map (fun n => -(n : Int))
  | '+' :: rest => (parseDigits rest).map (fun n => ((n : Nat) : Int))
  | cs => (parseDigits cs).map (fun n => ((n : Nat) : Int))

/-- Decimal digits of `n`, most significant first; structural fuel makes the
definition reduce by evaluation (`fuel > n` suffices). -/
def natToDigitsAux : Nat → Nat → List Char
  | 0, _ => []
  | fuel + 1, n =>
    if n < 10 then [Char.ofNat (48 + n)]
    else natToDigitsAux fuel (n / 10) ++ [Char.ofNat (48 + n % 10)]

def natToDigits (n : Nat) : List Char := natToDigitsAux (n + 1) n

/-- Go `strconv.Itoa`. -/
def goItoa (i : Int) : String :=
  if i < 0 then String.mk ('-' :: natToDigits (-i).toNat)
  else String.mk (natToDigits i.toNat)

/-! ### Task data model (`internal/data/task.go`) -/

/-- A Go `interface{}` metadata value: either a string or something else. -/
inductive MetaValue where
  | str (s : String)
  | other
deriving DecidableEq, Repr

/-- A Go string slice: `none` is the nil slice. -/
def GoStrSlice := Option (List String)
deriving instance DecidableEq, Repr for GoStrSlice

/-- The elements of a slice (nil has none). -/
def sliceElems : GoStrSlice → List String
  | none => []
  | some l => l

/-- `Task` (task.go lines 17-27). -/
structure Task where
  ID : String
  Subject : String
  Description : String
  ActiveForm : String
  Status : String
  Blocks : GoStrSlice
  BlockedBy : GoStrSlice
  Owner : String
  Metadata : Option (List (String × MetaValue))
deriving DecidableEq, Repr

/-- `TaskStore` (task.go lines 30-35); the cached directory path and
modification time are file-system bookkeeping not modelled here. -/
structure TaskStore where
  ProjectName : String
  Tasks : List Task
deriving DecidableEq, Repr

/-- Go map lookup over the metadata association list (first match). -/
def metaLookup (m : List (String × MetaValue)) (k : String) : Option MetaValue :=
  match m with
  | [] => none
  | kv :: rest => if kv.1 = k then some kv.2 else metaLookup rest k

/-- `GetTaskGroup` (task.go lines 453-461). -/
def GetTaskGroup (task : Task) : String :=
  match task.Metadata with
  | none => ""
  | some m =>
    match metaLookup m "group" with
    | some (MetaValue.str g) => g
    | _ => ""

/-- `removeFromSlice` (task.go lines 507-515): keeps non-matching elements;
a Go append loop that keeps nothing returns the nil slice. -/
def removeFromSlice (slice : GoStrSlice) (item : String) : GoStrSlice :=
  if (sliceElems slice).filter (fun s => s != item) = [] then none
  else some ((sliceElems slice).filter (fun s => s != item))

/-- The maximum parsed numeric ID, accumulated exactly as the loop in
`generateID` (task.go lines 396-406) does, starting from 0. -/
def maxNumericID (tasks : List Task) : Int :=
  tasks.foldl
    (fun m t =>
      match goAtoi t.ID with
      | some id => if id > m then id else m
      | none => m) 0

/-- `generateID` (task.go lines 396-406). -/
def TaskStore.generateID (s : TaskStore) : String :=
  goItoa (maxNumericID s.Tasks + 1)

/-- `AddTask` (task.go lines 337-350); returns the updated store and the
assigned ID. -/
def TaskStore.AddTask (s : TaskStore) (task : Task) : TaskStore × String :=
  let t1 := { task with ID := s.generateID }
  let t2 := if t1.Status = "" then { t1 with Status := "pending" } else t1
  let t3 := if t2.Blocks = none then { t2 with Blocks := some [] } else t2
  let t4 := if t3.BlockedBy = none then { t3 with BlockedBy := some [] } else t3
  ({ s with Tasks := s.Tasks ++ [t4] }, t4.ID)

/-- Strip `id` out of both dependency lists of a task (the body of the inner
loop of `DeleteTask`, task.go lines 368-374). -/
def stripTask (id : String) (t : Task) : Task :=
  { t with
    Blocks := removeFromSlice t.Blocks id
    BlockedBy := removeFromSlice t.BlockedBy id }

/-- The in-memory effect of `DeleteTask`: find the first task with the given
ID; if found, strip the ID from every other task and drop the found task.
Returns `none` when no task has the ID. -/
def findRemoveStrip (id : String) : List Task → Option (List Task)
  | [] => none
  | t :: rest =>
    if t.ID = id then some (rest.map (stripTask id))
    else
      match findRemoveStrip id rest with
      | some rest2 => some (stripTask id t :: rest2)
      | none => none

/-- Outcome of the `os.Remove` call inside `DeleteTask` (also covering a
failing `config.GetProjectDir`): success, file absent, or another error. -/
inductive FsRemoveResult where
  | ok
  | notExist
  | fail (msg : String)
deriving DecidableEq, Repr

/-- `DeleteTask` (task.go lines 364-393).  The store is mutated in place
before the file removal is attempted, so the mutated store is returned even
when the removal fails; `notExist` is tolerated. -/
def TaskStore.DeleteTask (s : TaskStore) (id : String) (fs : FsRemoveResult) :
    TaskStore × Except String Unit :=
  match findRemoveStrip id s.Tasks with
  | none => (s, Except.error ("task not found: " ++ id))
  | some newTasks =>
    ({ s with Tasks := newTasks },
      match fs with
      | FsRemoveResult.ok => Except.ok ()
      | FsRemoveResult.notExist => Except.ok ()
      | FsRemoveResult.fail msg => Except.error msg)

/-- `SearchTasks` (task.go lines 436-450). -/
def TaskStore.SearchTasks (s : TaskStore) (query : String) : List Task :=
  if query = "" then s.Tasks
  else
    let q := query.toLower
    s.Tasks.filter (fun task =>
      goContains task.Subject.toLower q || goContains task.Description.toLower q)

/-! ### Loading tasks from a directory (`LoadTasks`, task.go lines 133-209) -/

/-- What reading and JSON-decoding one directory entry yields. -/
inductive FileData where
  | unreadable
  | malformed
  | taskData (t : Task)
deriving DecidableEq, Repr

/-- One entry of the project directory. -/
structure DirEntry where
  name : String
  isDir : Bool
  fdata : FileData
deriving DecidableEq, Repr

/-- The numeric sort key used by `LoadTasks`: `Atoi` with the error ignored,
so unparsable IDs count as 0. -/
def taskSortKey (t : Task) : Int := (goAtoi t.ID).getD 0

/-- The task, if any, contributed by a directory entry: directories,
underscore-prefixed names, non-`.json` names, unreadable files and files
that fail to decode are all skipped. -/
def keepTaskEntry (e : DirEntry) : Option Task :=
  if e.isDir then none
  else if goHasLead e.name "_" then none
  else if !(goHasTail e.name ".json") then none
  else
    match e.fdata with
    | FileData.unreadable => none
    | FileData.malformed => none
    | FileData.taskData t => some t

def taskLE (a b : Task) : Prop := taskSortKey a ≤ taskSortKey b

instance : DecidableRel taskLE := fun a b => inferInstanceAs (Decidable (taskSortKey a ≤ taskSortKey b))

instance : IsTotal Task taskLE := ⟨fun a b => Int.le_total _ _⟩

instance : IsTrans Task taskLE := ⟨fun _ _ _ h1 h2 => le_trans h1 h2⟩

/-- `LoadTasks` (task.go lines 133-209): `none` models a missing project
directory (→ empty store, no error).  The best-effort backup pass and the
modification-time capture have no effect on the returned task list and are
not modelled. -/
def LoadTasks (projectName : String) (dir : Option (List DirEntry)) : TaskStore :=
  match dir with
  | none => { ProjectName := projectName, Tasks := [] }
  | some entries =>
    { ProjectName := projectName
      Tasks := List.insertionSort taskLE (entries.filterMap keepTaskEntry) }

/-! ### Group data model (`internal/data/group.go`) -/

/-- `TaskGroup` (group.go lines 14-18). -/
structure TaskGroup where
  name : String
  order : Int
  color : String
deriving DecidableEq, Repr

/-- `GroupStore` (group.go lines 21-26); file path and modification time are
file-system bookkeeping not modelled here. -/
structure GroupStore where
  ProjectName : String
  Groups : List TaskGroup
deriving DecidableEq, Repr

/-- `DefaultColors` (group.go lines 34-43). -/
def DefaultColors : List String :=
  ["#8b5cf6", "#3b82f6", "#10b981", "#f59e0b", "#ef4444", "#ec4899", "#06b6d4", "#84cc16"]

/-- `GetGroup` (group.go lines 143-150): first group with the given name. -/
def GroupStore.GetGroup (s : GroupStore) (name : String) : Option TaskGroup :=
  s.Groups.find? (fun g => g.name == name)

/-- `AddGroup` (group.go lines 153-169). -/
def GroupStore.AddGroup (s : GroupStore) (group : TaskGroup) : GroupStore :=
  let maxOrder := s.Groups.foldl (fun m g => if g.order > m then g.order else m) (0 : Int)
  let g1 := { group with order := maxOrder + 1 }
  let g2 :=
    if g1.color = "" then
      { g1 with color := DefaultColors.getD (s.Groups.length % DefaultColors.length) "" }
    else g1
  { s with Groups := s.Groups ++ [g2] }

/-- The loop of `UpdateGroup` (group.go lines 172-180): replace the first
group with the given name. -/
def updateGroupList (name : String) (updated : TaskGroup) : List TaskGroup → List TaskGroup × Bool
  | [] => ([], false)
  | g :: rest =>
    if g.name = name then (updated :: rest, true)
    else
      let r := updateGroupList name updated rest
      (g :: r.1, r.2)

/-- `UpdateGroup` (group.go lines 172-180). -/
def GroupStore.UpdateGroup (s : GroupStore) (name : String) (updated : TaskGroup) :
    GroupStore × Bool :=
  let r := updateGroupList name updated s.Groups
  ({ s with Groups := r.1 }, r.2)

/-- The loop of `DeleteGroup` (group.go lines 183-191): drop the first group
with the given name. -/
def deleteGroupList (name : String) : List TaskGroup → List TaskGroup × Bool
  | [] => ([], false)
  | g :: rest =>
    if g.name = name then (rest, true)
    else
      let r := deleteGroupList name rest
      (g :: r.1, r.2)

/-- `DeleteGroup` (group.go lines 183-191). -/
def GroupStore.DeleteGroup (s : GroupStore) (name : String) : GroupStore × Bool :=
  let r := deleteGroupList name s.Groups
  ({ s with Groups := r.1 }, r.2)

/-- Swap the `order` fields of the elements at positions `i` and `j`
(the simultaneous assignment in the move operations). -/
def swapOrders (l : List TaskGroup) (i j : Nat) : List TaskGroup :=
  match l[i]?, l[j]? with
  | some gi, some gj =>
    (l.set i { gi with order := gj.order }).set j { gj with order := gi.order }
  | _, _ => l

def groupLE (a b : TaskGroup) : Prop := a.order ≤ b.order

instance : DecidableRel groupLE := fun a b => inferInstanceAs (Decidable (a.order ≤ b.order))

instance : IsTotal TaskGroup groupLE := ⟨fun a b => Int.le_total _ _⟩

instance : IsTrans TaskGroup groupLE := ⟨fun _ _ _ h1 h2 => le_trans h1 h2⟩

/-- The strict order comparison used below to pin down sort results. -/
def groupLT (a b : TaskGroup) : Prop := a.order < b.order

instance : DecidableRel groupLT := fun a b => inferInstanceAs (Decidable (a.order < b.order))

instance : IsAntisymm TaskGroup groupLT :=
  ⟨fun _ _ h1 h2 => absurd (lt_trans h1 h2) (lt_irrefl _)⟩

/-- The `sort.Slice(..., by Order)` pass of the move operations, modelled by
a deterministic comparison sort producing an order-sorted permutation. -/
def sortGroupsByOrder (l : List TaskGroup) : List TaskGroup :=
  List.insertionSort groupLE l

/-- The scan of `MoveGroupUp` (group.go lines 194-207): first index `i` with
a name match and `i > 0`; `i` is the running index of the range loop. -/
def moveUpScan (name : String) : List TaskGroup → Nat → Option Nat
  | [], _ => none
  | g :: rest, i =>
    if g.name = name ∧ 0 < i then some i else moveUpScan name rest (i + 1)

/-- `MoveGroupUp` (group.go lines 194-207). -/
def GroupStore.MoveGroupUp (s : GroupStore) (name : String) : GroupStore × Bool :=
  match moveUpScan name s.Groups 0 with
  | some i => ({ s with Groups := sortGroupsByOrder (swapOrders s.Groups (i - 1) i) }, true)
  | none => (s, false)

/-- The scan of `MoveGroupDown` (group.go lines 210-223): first index `i`
with a name match and `i < n - 1`, `n` the total length. -/
def moveDownScan (name : String) (n : Nat) : List TaskGroup → Nat → Option Nat
  | [], _ => none
  | g :: rest, i =>
    if g.name = name ∧ i + 1 < n then some i else moveDownScan name n rest (i + 1)

/-- `MoveGroupDown` (group.go lines 210-223). -/
def GroupStore.MoveGroupDown (s : GroupStore) (name : String) : GroupStore × Bool :=
  match moveDownScan name s.Groups.length s.Groups 0 with
  | some i => ({ s with Groups := sortGroupsByOrder (swapOrders s.Groups i (i + 1)) }, true)
  | none => (s, false)

/-- `GetGroupNames` (group.go lines 226-232). -/
def GroupStore.GetGroupNames (s : GroupStore) : List String :=
  s.Groups.map (fun g => g.name)

/-- `EnsureGroupExists` (group.go lines 246-253); `TaskGroup{Name: name}`
has zero order and empty color. -/
def GroupStore.EnsureGroupExists (s : GroupStore) (name : String) : GroupStore :=
  if name = "" then s
  else
    match s.GetGroup name with
    | none => s.AddGroup { name := name, order := 0, color := "" }
    | some _ => s

/-! ### View composition (`internal/model/tasks.go`) -/

/-- `taskListItem` (tasks.go lines 42-46); the Go task pointer is modelled
by an optional task value. -/
structure TaskListItem where
  isGroup : Bool
  groupName : String
  task : Option Task
deriving DecidableEq, Repr

/-- The fields of `TasksModel` (tasks.go lines 16-39) that the list
composition reads: stores, cursor, rows, filters, search text, and the
collapsed-group map (modelled as its lookup function). -/
structure TasksModel where
  projectName : String
  taskStore : TaskStore
  groupStore : GroupStore
  cursor : Int
  items : List TaskListItem
  statusFilter : String
  groupFilter : String
  hideCompleted : Bool
  searchValue : String
  collapsedGroups : String → Bool

/-- The filter chain at the top of `rebuildItems` (tasks.go lines 110-137). -/
def passesFilters (m : TasksModel) (task : Task) : Bool :=
  if m.statusFilter != "" && task.Status != m.statusFilter then false
  else if m.hideCompleted && task.Status == "completed" then false
  else if m.groupFilter != "" && GetTaskGroup task != m.groupFilter then false
  else if m.searchValue != "" then
    let query := m.searchValue.toLower
    goContains task.Subject.toLower query || goContains task.Description.toLower query
  else true

/-- The resolved bucket name of a task (empty group → "Uncategorized"). -/
def resolvedGroup (task : Task) : String :=
  let g := GetTaskGroup task
  if g = "" then "Uncategorized" else g

/-- Append a task to its bucket, creating the bucket on first use.  The
association list keeps first-occurrence order; Go iterates the bucket map in
an unspecified order, so this fixes one admissible order (the claims proved
below do not depend on it). -/
def bucketInsert (buckets : List (String × List Task)) (g : String) (t : Task) :
    List (String × List Task) :=
  match buckets with
  | [] => [(g, [t])]
  | (k, ts) :: rest =>
    if k = g then (k, ts ++ [t]) :: rest else (k, ts) :: bucketInsert rest g t

/-- The `groupedTasks` map of `rebuildItems` (tasks.go lines 140-147). -/
def bucketTasks (tasks : List Task) : List (String × List Task) :=
  tasks.foldl (fun b t => bucketInsert b (resolvedGroup t) t) []

/-- Bucket lookup (`groupedTasks[groupName]`). -/
def lookupBucket (buckets : List (String × List Task)) (g : String) : Option (List Task) :=
  match buckets with
  | [] => none
  | (k, ts) :: rest => if k = g then some ts else lookupBucket rest g

/-- `addGroupToItems` (tasks.go lines 178-193): a group header, then the
tasks as rows when the group is not collapsed. -/
def addGroupToItems (collapsedGroups : String → Bool) (items : List TaskListItem)
    (groupName : String) (tasks : List Task) : List TaskListItem :=
  let items1 := items ++ [{ isGroup := true, groupName := groupName, task := none }]
  if collapsedGroups groupName then items1
  else items1 ++ tasks.map (fun t => { isGroup := false, groupName := "", task := some t })

/-- The cursor clamp at the end of `rebuildItems` (tasks.go lines 169-175)
and of `ReloadData` (tasks.go lines 96-101). -/
def clampCursor (len : Nat) (c : Int) : Int :=
  if (if (len : Int) ≤ c then (len : Int) - 1 else c) < 0 then 0
  else if (len : Int) ≤ c then (len : Int) - 1 else c

/-- `rebuildItems` (tasks.go lines 105-176). -/
def rebuildItems (m : TasksModel) : TasksModel :=
  let tasks := m.taskStore.Tasks.filter (passesFilters m)
  let buckets := bucketTasks tasks
  let groupOrder := m.groupStore.GetGroupNames
  let step1 := groupOrder.foldl
    (fun (acc : List TaskListItem × List String) groupName =>
      match lookupBucket buckets groupName with
      | some ts => (addGroupToItems m.collapsedGroups acc.1 groupName ts, acc.2 ++ [groupName])
      | none => acc)
    ([], [])
  let items2 := buckets.foldl
    (fun acc b =>
      if step1.2.contains b.1 then acc
      else addGroupToItems m.collapsedGroups acc b.1 b.2)
    step1.1
  { m with items := items2, cursor := clampCursor items2.length m.cursor }

/-- The "remember current task ID" read at the top of `ReloadData`
(tasks.go lines 77-80).  Go indexes `m.items[m.cursor]` guarded only by
`cursor < len(items)`; every call site keeps the cursor non-negative (the
clamps above), so the non-negativity guard is made explicit here. -/
def currentTaskID (m : TasksModel) : String :=
  if 0 ≤ m.cursor ∧ m.cursor < (m.items.length : Int) then
    match m.items[m.cursor.toNat]? with
    | some it =>
      if it.isGroup then ""
      else
        match it.task with
        | some t => t.ID
        | none => ""
    | none => ""
  else ""

/-- The cursor-restore loop of `ReloadData` (tasks.go lines 86-93): first
row index holding a task with the remembered ID. -/
def findTaskRowIdxFrom (tid : String) : List TaskListItem → Nat → Option Nat
  | [], _ => none
  | it :: rest, i =>
    if !it.isGroup && (match it.task with | some t => t.ID == tid | none => false) then some i
    else findTaskRowIdxFrom tid rest (i + 1)

def findTaskRowIdx (items : List TaskListItem) (tid : String) : Option Nat :=
  findTaskRowIdxFrom tid items 0

/-- `ReloadData` (tasks.go lines 72-102). -/
def ReloadData (m : TasksModel) (ts : TaskStore) (gs : GroupStore) : TasksModel :=
  let m0 := { m with taskStore := ts, groupStore := gs }
  let tid := currentTaskID m0
  let m1 := rebuildItems m0
  if tid != "" then
    match findTaskRowIdx m1.items tid with
    | some i => { m1 with cursor := (i : Int) }
    | none => { m1 with cursor := clampCursor m1.items.length m1.cursor }
  else { m1 with cursor := clampCursor m1.items.length m1.cursor }

/-! ### Basic lemmas about slice stripping and task removal -/

theorem sliceElems_removeFromSlice (sl : GoStrSlice) (id : String) :
    sliceElems (removeFromSlice sl id) = (sliceElems sl).filter (fun s => s != id) := by
  unfold removeFromSlice
  by_cases h : (sliceElems sl).filter (fun s => s != id) = []
  · rw [if_pos h, h]
    rfl
  · rw [if_neg h]
    rfl

theorem not_mem_removeFromSlice (sl : GoStrSlice) (id : String) :
    id ∉ sliceElems (removeFromSlice sl id) := by
  rw [sliceElems_removeFromSlice]
  intro hm
  rw [List.mem_filter] at hm
  simp at hm

theorem stripTask_not_mem (id : String) (t : Task) :
    id ∉ sliceElems (stripTask id t).Blocks ∧ id ∉ sliceElems (stripTask id t).BlockedBy :=
  ⟨not_mem_removeFromSlice _ _, not_mem_removeFromSlice _ _⟩

theorem findRemoveStrip_eq_none (id : String) :
    ∀ tasks : List Task, id ∉ tasks.map Task.ID ↔ findRemoveStrip id tasks = none
  | [] => by simp [findRemoveStrip]
  | t :: rest => by
    have ih := findRemoveStrip_eq_none id rest
    show id ∉ List.map Task.ID (t :: rest) ↔
      (if t.ID = id then some (rest.map (stripTask id))
       else
         match findRemoveStrip id rest with
         | some rest2 => some (stripTask id t :: rest2)
         | none => none) = none
    by_cases h : t.ID = id
    · rw [if_pos h]
      exact iff_of_false
        (fun hc => hc (by rw [List.map_cons]; exact List.mem_cons.mpr (Or.inl h.symm)))
        (by simp)
    · rw [if_neg h]
      cases hr : findRemoveStrip id rest with
      | none =>
        refine iff_of_true ?_ rfl
        simp only [List.map_cons, List.mem_cons, not_or]
        exact ⟨fun he => h he.symm, ih.mpr hr⟩
      | some l =>
        refine iff_of_false ?_ (by simp)
        intro hc
        simp only [List.map_cons, List.mem_cons, not_or] at hc
        have h2 := ih.mp hc.2
        rw [hr] at h2
        exact Option.noConfusion h2

theorem findRemoveStrip_spec (id : String) :
    ∀ (tasks : List Task) (l : List Task), findRemoveStrip id tasks = some l →
      l.length + 1 = tasks.length ∧
      ∀ t ∈ l, id ∉ sliceElems t.Blocks ∧ id ∉ sliceElems t.BlockedBy
  | [], l => by simp [findRemoveStrip]
  | t :: rest, l => by
    simp only [findRemoveStrip]
    by_cases h : t.ID = id
    · rw [if_pos h]
      intro he
      obtain rfl : rest.map (stripTask id) = l := by injection he
      refine ⟨by simp, ?_⟩
      intro u hu
      rw [List.mem_map] at hu
      obtain ⟨v, _, rfl⟩ := hu
      exact stripTask_not_mem id v
    · rw [if_neg h]
      cases hr : findRemoveStrip id rest with
      | none => intro he; exact absurd he (by simp)
      | some l2 =>
        intro he
        obtain rfl : stripTask id t :: l2 = l := by injection he
        obtain ⟨h1, h2⟩ := findRemoveStrip_spec id rest l2 hr
        refine ⟨by simp [← h1], ?_⟩
        intro u hu
        rcases List.mem_cons.mp hu with rfl | hu2
        · exact stripTask_not_mem id t
        · exact h2 u hu2

/-- C1: for every `TaskStore` and every task ID present in the store,
`DeleteTask id` removes the ID from the `Blocks` and `BlockedBy` lists of
every remaining task, removes the task itself (the count drops by exactly
one), and for an absent ID it returns the "not found" error leaving the
store unchanged.  The witness instantiates the spec scenario
`{1: blocks=[2]}, {2: blockedBy=[1]}`. -/
theorem deleteTask_cascades (s : TaskStore) (id : String) (fs : FsRemoveResult) :
    (id ∈ s.Tasks.map Task.ID →
      (s.DeleteTask id fs).1.Tasks.length + 1 = s.Tasks.length ∧
      ∀ t ∈ (s.DeleteTask id fs).1.Tasks,
        id ∉ sliceElems t.Blocks ∧ id ∉ sliceElems t.BlockedBy) ∧
    (id ∉ s.Tasks.map Task.ID →
      s.DeleteTask id fs = (s, Except.error ("task not found: " ++ id))) := by
  constructor
  · intro hmem
    unfold TaskStore.DeleteTask
    cases hr : findRemoveStrip id s.Tasks with
    | none => exact absurd hmem ((findRemoveStrip_eq_none id s.Tasks).mpr hr)
    | some l =>
      obtain ⟨h1, h2⟩ := findRemoveStrip_spec id s.Tasks l hr
      exact ⟨h1, h2⟩
  · intro hmem
    unfold TaskStore.DeleteTask
    rw [(findRemoveStrip_eq_none id s.Tasks).mp hmem]

def cwTask1 : Task :=
  { ID := "1", Subject := "t1", Description := "", ActiveForm := "", Status := "pending",
    Blocks := some ["2"], BlockedBy := none, Owner := "", Metadata := none }

def cwTask2 : Task :=
  { ID := "2", Subject := "t2", Description := "", ActiveForm := "", Status := "pending",
    Blocks := none, BlockedBy := some ["1"], Owner := "", Metadata := none }

def cwStore : TaskStore := { ProjectName := "p", Tasks := [cwTask1, cwTask2] }

theorem deleteTask_cascades_witness :
    ("1" ∈ cwStore.Tasks.map Task.ID) ∧
    ((cwStore.DeleteTask "1" FsRemoveResult.ok).1.Tasks.length + 1 = cwStore.Tasks.length ∧
      ∀ t ∈ (cwStore.DeleteTask "1" FsRemoveResult.ok).1.Tasks,
        "1" ∉ sliceElems t.Blocks ∧ "1" ∉ sliceElems t.BlockedBy) ∧
    (cwStore.DeleteTask "1" FsRemoveResult.ok).1.Tasks =
      [{ cwTask2 with BlockedBy := none }] :=
  ⟨by decide, (deleteTask_cascades cwStore "1" FsRemoveResult.ok).1 (by decide), by decide⟩

/-- C10: `DeleteTask` is not atomic on error.  When the ID is present and the
file removal fails with an error other than not-found, the error is returned
while the in-memory collection has already been mutated exactly as on the
success path: the task is gone (count down by one) and the ID is stripped
from every remaining task's dependency lists. -/
theorem deleteTask_not_atomic (s : TaskStore) (id msg : String)
    (h : id ∈ s.Tasks.map Task.ID) :
    (s.DeleteTask id (FsRemoveResult.fail msg)).2 = Except.error msg ∧
    (s.DeleteTask id (FsRemoveResult.fail msg)).1 = (s.DeleteTask id FsRemoveResult.ok).1 ∧
    (s.DeleteTask id (FsRemoveResult.fail msg)).1.Tasks.length + 1 = s.Tasks.length ∧
    ∀ t ∈ (s.DeleteTask id (FsRemoveResult.fail msg)).1.Tasks,
      id ∉ sliceElems t.Blocks ∧ id ∉ sliceElems t.BlockedBy := by
  unfold TaskStore.DeleteTask
  cases hr : findRemoveStrip id s.Tasks with
  | none => exact absurd h ((findRemoveStrip_eq_none id s.Tasks).mpr hr)
  | some l =>
    obtain ⟨h1, h2⟩ := findRemoveStrip_spec id s.Tasks l hr
    exact ⟨rfl, rfl, h1, h2⟩

theorem deleteTask_not_atomic_witness :
    (cwStore.DeleteTask "1" (FsRemoveResult.fail "disk full")).2 = Except.error "disk full" ∧
    (cwStore.DeleteTask "1" (FsRemoveResult.fail "disk full")).1 =
      (cwStore.DeleteTask "1" FsRemoveResult.ok).1 ∧
    (cwStore.DeleteTask "1" (FsRemoveResult.fail "disk full")).1.Tasks.length + 1 =
      cwStore.Tasks.length ∧
    ∀ t ∈ (cwStore.DeleteTask "1" (FsRemoveResult.fail "disk full")).1.Tasks,
      "1" ∉ sliceElems t.Blocks ∧ "1" ∉ sliceElems t.BlockedBy :=
  deleteTask_not_atomic cwStore "1" "disk full" (by decide)

/-! ### Substring search (C5) -/

theorem leadMatch_iff : ∀ (needle hay : List Char), leadMatch needle hay = true ↔ needle <+: hay
  | [], hay => by simp [leadMatch]
  | _ :: _, [] => by simp [leadMatch]
  | a :: as, b :: bs => by
    simp only [leadMatch, Bool.and_eq_true, decide_eq_true_eq, List.cons_prefix_cons]
    exact and_congr Iff.rfl (leadMatch_iff as bs)

theorem containsCh_iff : ∀ (needle hay : List Char), containsCh needle hay = true ↔ needle <:+: hay
  | needle, [] => by
    simp [containsCh, leadMatch_iff, List.infix_nil, List.prefix_nil]
  | needle, c :: t => by
    rw [containsCh, Bool.or_eq_true, leadMatch_iff, containsCh_iff needle t,
      List.infix_cons_iff]

theorem goContains_iff (s substr : String) :
    goContains s substr = true ↔ substr.data <:+: s.data :=
  containsCh_iff _ _

/-- C5: `SearchTasks ""` returns the full task collection, and for a
non-empty query the result is exactly the tasks whose subject or description
contains the query case-insensitively (both sides lower-cased, contiguous
substring at character level). -/
theorem searchTasks_query (s : TaskStore) (q : String) :
    (q = "" → s.SearchTasks q = s.Tasks) ∧
    (q ≠ "" → ∀ t, t ∈ s.SearchTasks q ↔
      t ∈ s.Tasks ∧
        (q.toLower.data <:+: t.Subject.toLower.data ∨
          q.toLower.data <:+: t.Description.toLower.data)) := by
  constructor
  · intro h
    simp [TaskStore.SearchTasks, h]
  · intro h t
    unfold TaskStore.SearchTasks
    rw [if_neg h]
    simp only [List.mem_filter, Bool.or_eq_true, goContains_iff]

def cwSearchStore : TaskStore :=
  { ProjectName := "p",
    Tasks := [{ cwTask1 with Subject := "Hello World" }, { cwTask2 with Description := "xyzzy" }] }

theorem searchTasks_query_witness :
    (("WORLD" : String) ≠ "") ∧
    ({ cwTask1 with Subject := "Hello World" } ∈ cwSearchStore.SearchTasks "WORLD" ↔
      { cwTask1 with Subject := "Hello World" } ∈ cwSearchStore.Tasks ∧
        (("WORLD" : String).toLower.data <:+:
            ({ cwTask1 with Subject := "Hello World" } : Task).Subject.toLower.data ∨
          ("WORLD" : String).toLower.data <:+:
            ({ cwTask1 with Subject := "Hello World" } : Task).Description.toLower.data)) :=
  ⟨by decide,
    (searchTasks_query cwSearchStore "WORLD").2 (by decide) { cwTask1 with Subject := "Hello World" }⟩

/-! ### Group creation (C6, C8) -/

/-- What `AddGroup` appends: the caller's group with order forced to
max-fold + 1 and the palette color substituted when the color was empty. -/
theorem addGroup_shape (s : GroupStore) (g : TaskGroup) :
    ∃ g2, (s.AddGroup g).Groups = s.Groups ++ [g2] ∧
      g2.name = g.name ∧
      g2.order = s.Groups.foldl (fun m x => if x.order > m then x.order else m) 0 + 1 ∧
      (g.color = "" → g2.color = DefaultColors.getD (s.Groups.length % DefaultColors.length) "") ∧
      (g.color ≠ "" → g2.color = g.color) := by
  unfold GroupStore.AddGroup
  dsimp only
  by_cases hc : g.color = ""
  · rw [if_pos hc]
    exact ⟨_, rfl, rfl, rfl, fun _ => rfl, fun hne => absurd hc hne⟩
  · rw [if_neg hc]
    exact ⟨_, rfl, rfl, rfl, fun he => absurd he hc, fun _ => rfl⟩

/-- The fold inside `AddGroup` computes the maximum of 0 and all orders. -/
theorem foldOrder_spec :
    ∀ (l : List TaskGroup) (a : Int),
      a ≤ l.foldl (fun m x => if x.order > m then x.order else m) a ∧
      (∀ g ∈ l, g.order ≤ l.foldl (fun m x => if x.order > m then x.order else m) a) ∧
      (l.foldl (fun m x => if x.order > m then x.order else m) a = a ∨
        ∃ g ∈ l, g.order = l.foldl (fun m x => if x.order > m then x.order else m) a)
  | [], a => by simp
  | g :: rest, a => by
    rw [List.foldl_cons]
    by_cases hg : g.order > a
    · rw [if_pos hg]
      obtain ⟨ih1, ih2, ih3⟩ := foldOrder_spec rest g.order
      refine ⟨le_trans (le_of_lt hg) ih1, ?_, ?_⟩
      · intro u hu
        rcases List.mem_cons.mp hu with rfl | hu2
        · exact ih1
        · exact ih2 u hu2
      · rcases ih3 with he | ⟨u, hu, he⟩
        · exact Or.inr ⟨g, List.mem_cons_self g rest, he.symm⟩
        · exact Or.inr ⟨u, List.mem_cons.mpr (Or.inr hu), he⟩
    · rw [if_neg hg]
      obtain ⟨ih1, ih2, ih3⟩ := foldOrder_spec rest a
      refine ⟨ih1, ?_, ?_⟩
      · intro u hu
        rcases List.mem_cons.mp hu with rfl | hu2
        · exact le_trans (by omega) ih1
        · exact ih2 u hu2
      · rcases ih3 with he | ⟨u, hu, he⟩
        · exact Or.inl he
        · exact Or.inr ⟨u, List.mem_cons.mpr (Or.inr hu), he⟩

/-- C6 counterexample: on a store holding one group of order `-5`, the claim
says the new order is `(-5) + 1 = -4`, but `AddGroup` (whose max-order fold
starts at 0) assigns order 1. -/
theorem addGroup_maxorder_cx :
    ((GroupStore.mk "p" [TaskGroup.mk "A" (-5) "c"]).AddGroup
        (TaskGroup.mk "B" 0 "x")).Groups =
      [TaskGroup.mk "A" (-5) "c", TaskGroup.mk "B" 1 "x"] ∧
    ((1 : Int) ≠ -5 + 1) := by
  constructor
  · rfl
  · decide

/-- C6 (amended): `AddGroup` appends a group whose order is
`max(0, maximum existing order) + 1`; with no caller color it assigns
`DefaultColors[count % len(DefaultColors)]`, and an explicit caller color is
preserved verbatim. -/
theorem addGroup_assignment (s : GroupStore) (g : TaskGroup) :
    ∃ g2, (s.AddGroup g).Groups = s.Groups ++ [g2] ∧
      g2.name = g.name ∧
      0 ≤ g2.order - 1 ∧
      (∀ u ∈ s.Groups, u.order ≤ g2.order - 1) ∧
      (g2.order - 1 = 0 ∨ ∃ u ∈ s.Groups, u.order = g2.order - 1) ∧
      (g.color = "" → g2.color = DefaultColors.getD (s.Groups.length % DefaultColors.length) "") ∧
      (g.color ≠ "" → g2.color = g.color) := by
  obtain ⟨g2, h1, h2, h3, h4, h5⟩ := addGroup_shape s g
  obtain ⟨f1, f2, f3⟩ := foldOrder_spec s.Groups 0
  refine ⟨g2, h1, h2, ?_, ?_, ?_, h4, h5⟩
  · omega
  · intro u hu
    have := f2 u hu
    omega
  · rcases f3 with he | ⟨u, hu, he⟩
    · exact Or.inl (by omega)
    · exact Or.inr ⟨u, hu, by omega⟩

def cwGroupStore : GroupStore :=
  { ProjectName := "p", Groups := [TaskGroup.mk "A" 2 "#111111"] }

theorem addGroup_assignment_witness :
    ∃ g2, (cwGroupStore.AddGroup (TaskGroup.mk "B" 0 "")).Groups = cwGroupStore.Groups ++ [g2] ∧
      g2.name = (TaskGroup.mk "B" 0 "").name ∧
      0 ≤ g2.order - 1 ∧
      (∀ u ∈ cwGroupStore.Groups, u.order ≤ g2.order - 1) ∧
      (g2.order - 1 = 0 ∨ ∃ u ∈ cwGroupStore.Groups, u.order = g2.order - 1) ∧
      ((TaskGroup.mk "B" 0 "").color = "" →
        g2.color = DefaultColors.getD (cwGroupStore.Groups.length % DefaultColors.length) "") ∧
      ((TaskGroup.mk "B" 0 "").color ≠ "" → g2.color = (TaskGroup.mk "B" 0 "").color) :=
  addGroup_assignment cwGroupStore (TaskGroup.mk "B" 0 "")

/-- After `EnsureGroupExists name` with a non-empty name, a group with that
name can be found. -/
theorem ensure_getGroup_some (s : GroupStore) (name : String) (h : name ≠ "") :
    ∃ g, (s.EnsureGroupExists name).GetGroup name = some g := by
  unfold GroupStore.EnsureGroupExists
  rw [if_neg h]
  cases hg : s.GetGroup name with
  | some g => exact ⟨g, hg⟩
  | none =>
    obtain ⟨g2, h1, h2, _, _, _⟩ := addGroup_shape s { name := name, order := 0, color := "" }
    unfold GroupStore.GetGroup
    rw [h1, List.find?_append]
    unfold GroupStore.GetGroup at hg
    rw [hg]
    simp [List.find?_cons, h2]

/-- C8: `EnsureGroupExists` is an idempotent create-if-absent: the empty name
is a no-op, a second call with the same non-empty name changes nothing, and
starting from a store without the name exactly one group with that name
exists afterwards. -/
theorem ensureGroup_idempotent (s : GroupStore) (name : String) :
    s.EnsureGroupExists "" = s ∧
    (name ≠ "" → (s.EnsureGroupExists name).EnsureGroupExists name = s.EnsureGroupExists name) ∧
    (name ≠ "" → (∀ g ∈ s.Groups, g.name ≠ name) →
      ((s.EnsureGroupExists name).Groups.filter (fun g => g.name == name)).length = 1) := by
  refine ⟨by unfold GroupStore.EnsureGroupExists; rw [if_pos rfl], ?_, ?_⟩
  · intro h
    obtain ⟨g, hg⟩ := ensure_getGroup_some s name h
    generalize hE : s.EnsureGroupExists name = t at hg ⊢
    unfold GroupStore.EnsureGroupExists
    rw [if_neg h, hg]
  · intro h habs
    unfold GroupStore.EnsureGroupExists
    rw [if_neg h]
    have hget : s.GetGroup name = none := by
      unfold GroupStore.GetGroup
      rw [List.find?_eq_none]
      intro g hg
      simp [habs g hg]
    rw [hget]
    obtain ⟨g2, h1, h2, _, _, _⟩ := addGroup_shape s { name := name, order := 0, color := "" }
    rw [h1, List.filter_append]
    have hnil : s.Groups.filter (fun g => g.name == name) = [] := by
      rw [List.filter_eq_nil_iff]
      intro g hg
      simp [habs g hg]
    rw [hnil]
    simp [h2]

theorem ensureGroup_idempotent_witness :
    (GroupStore.mk "p" []).EnsureGroupExists "" = GroupStore.mk "p" [] ∧
    (((GroupStore.mk "p" []).EnsureGroupExists "Backend").EnsureGroupExists "Backend" =
      (GroupStore.mk "p" []).EnsureGroupExists "Backend") ∧
    ((((GroupStore.mk "p" []).EnsureGroupExists "Backend").Groups.filter
        (fun g => g.name == "Backend")).length = 1) :=
  ⟨(ensureGroup_idempotent (GroupStore.mk "p" []) "Backend").1,
    (ensureGroup_idempotent (GroupStore.mk "p" []) "Backend").2.1 (by decide),
    (ensureGroup_idempotent (GroupStore.mk "p" []) "Backend").2.2 (by decide) (by decide)⟩

/-! ### Loading (C3) -/

/-- C3: `LoadTasks` on a missing project directory returns an empty store
(never an error); on an existing directory it keeps exactly the entries that
are files, not underscore-prefixed, `.json`-suffixed, readable and parseable
(as a permutation accounting for reordering), sorted ascending by the
numeric interpretation of the ID with unparsable IDs keyed as zero. -/
theorem loadTasks_skips_and_sorts (n : String) :
    ((LoadTasks n none).Tasks = [] ∧ (LoadTasks n none).ProjectName = n) ∧
    (∀ entries : List DirEntry,
      ((LoadTasks n (some entries)).Tasks).Perm (entries.filterMap keepTaskEntry) ∧
      ((LoadTasks n (some entries)).Tasks).Sorted taskLE) ∧
    (∀ e : DirEntry,
      (e.isDir = true ∨ goHasLead e.name "_" = true ∨ goHasTail e.name ".json" = false ∨
          e.fdata = FileData.unreadable ∨ e.fdata = FileData.malformed) →
        keepTaskEntry e = none) ∧
    (∀ t : Task, goAtoi t.ID = none → taskSortKey t = 0) := by
  refine ⟨⟨rfl, rfl⟩, ?_, ?_, ?_⟩
  · intro entries
    exact ⟨List.perm_insertionSort taskLE _, List.sorted_insertionSort taskLE _⟩
  · intro e he
    unfold keepTaskEntry
    rcases he with h | h | h | h | h <;> simp [h]
  · intro t ht
    unfold taskSortKey
    rw [ht]
    rfl

def cwEntryGood : DirEntry := { name := "2.json", isDir := false, fdata := FileData.taskData cwTask2 }

def cwEntryBad : DirEntry := { name := "1.json", isDir := false, fdata := FileData.malformed }

def cwEntryGroups : DirEntry := { name := "_groups.json", isDir := false, fdata := FileData.malformed }

theorem loadTasks_skips_and_sorts_witness :
    ((LoadTasks "p" none).Tasks = [] ∧ (LoadTasks "p" none).ProjectName = "p") ∧
    ((LoadTasks "p" (some [cwEntryGood, cwEntryBad, cwEntryGroups])).Tasks).Perm
      ([cwEntryGood, cwEntryBad, cwEntryGroups].filterMap keepTaskEntry) ∧
    ((LoadTasks "p" (some [cwEntryGood, cwEntryBad, cwEntryGroups])).Tasks).Sorted taskLE ∧
    keepTaskEntry cwEntryGroups = none :=
  ⟨(loadTasks_skips_and_sorts "p").1,
    ((loadTasks_skips_and_sorts "p").2.1 [cwEntryGood, cwEntryBad, cwEntryGroups]).1,
    ((loadTasks_skips_and_sorts "p").2.1 [cwEntryGood, cwEntryBad, cwEntryGroups]).2,
    (loadTasks_skips_and_sorts "p").2.2.1 cwEntryGroups (Or.inr (Or.inl (by decide)))⟩

/-! ### Decimal round-trip (C2) -/

theorem digitVal_ofNat (d : Nat) (h : d < 10) : digitVal (Char.ofNat (48 + d)) = d := by
  interval_cases d <;> decide

theorem isDigit_ofNat (d : Nat) (h : d < 10) : (Char.ofNat (48 + d)).isDigit = true := by
  interval_cases d <;> decide

theorem natToDigitsAux_spec :
    ∀ (fuel n : Nat), n < fuel →
      natToDigitsAux fuel n ≠ [] ∧
      (natToDigitsAux fuel n).all Char.isDigit = true ∧
      ∀ acc : Nat,
        (natToDigitsAux fuel n).foldl (fun a c => a * 10 + digitVal c) acc =
          acc * 10 ^ (natToDigitsAux fuel n).length + n
  | 0, n => fun h => absurd h (Nat.not_lt_zero n)
  | fuel + 1, n => by
    intro h
    unfold natToDigitsAux
    by_cases h10 : n < 10
    · rw [if_pos h10]
      refine ⟨by simp, by simp [isDigit_ofNat n h10], ?_⟩
      intro acc
      simp [digitVal_ofNat n h10]
    · rw [if_neg h10]
      have hlt : n / 10 < fuel :=
        lt_of_lt_of_le (Nat.div_lt_self (by omega) (by omega)) (by omega)
      obtain ⟨ih1, ih2, ih3⟩ := natToDigitsAux_spec fuel (n / 10) hlt
      refine ⟨by simp, ?_, ?_⟩
      · rw [List.all_append]
        simp [ih2, isDigit_ofNat (n % 10) (Nat.mod_lt n (by omega))]
      · intro acc
        rw [List.foldl_append, ih3 acc]
        have hd : digitVal (Char.ofNat (48 + n % 10)) = n % 10 :=
          digitVal_ofNat (n % 10) (Nat.mod_lt n (by omega))
        have hdm : n / 10 * 10 + n % 10 = n := by omega
        simp only [List.foldl_cons, List.foldl_nil, List.length_append, List.length_cons,
          List.length_nil, hd]
        calc (acc * 10 ^ (natToDigitsAux fuel (n / 10)).length + n / 10) * 10 + n % 10
            = acc * (10 ^ (natToDigitsAux fuel (n / 10)).length * 10) +
                (n / 10 * 10 + n % 10) := by ring
          _ = acc * 10 ^ ((natToDigitsAux fuel (n / 10)).length + (0 + 1)) + n := by
              rw [hdm, pow_succ]

theorem natToDigits_spec (n : Nat) :
    natToDigits n ≠ [] ∧ (natToDigits n).all Char.isDigit = true ∧
      (natToDigits n).foldl (fun a c => a * 10 + digitVal c) 0 = n := by
  obtain ⟨h1, h2, h3⟩ := natToDigitsAux_spec (n + 1) n (by omega)
  refine ⟨h1, h2, ?_⟩
  have := h3 0
  simpa using this

theorem parseDigits_natToDigits (n : Nat) : parseDigits (natToDigits n) = some n := by
  obtain ⟨h1, h2, h3⟩ := natToDigits_spec n
  unfold parseDigits
  rw [if_neg h1, if_pos h2, h3]

theorem goAtoi_mk_digits (cs : List Char) (h : cs.all Char.isDigit = true) (hne : cs ≠ []) :
    goAtoi (String.mk cs) = (parseDigits cs).map (fun n => ((n : Nat) : Int)) := by
  cases cs with
  | nil => exact absurd rfl hne
  | cons c rest =>
    have hc : c.isDigit = true := by
      rw [List.all_cons, Bool.and_eq_true] at h
      exact h.1
    have hm : c ≠ '-' := by
      intro he
      rw [he] at hc
      exact absurd hc (by decide)
    have hp : c ≠ '+' := by
      intro he
      rw [he] at hc
      exact absurd hc (by decide)
    show (match c :: rest with
      | '-' :: r => (parseDigits r).map (fun n => -(n : Int))
      | '+' :: r => (parseDigits r).map (fun n => ((n : Nat) : Int))
      | cs => (parseDigits cs).map (fun n => ((n : Nat) : Int))) =
      (parseDigits (c :: rest)).map (fun n => ((n : Nat) : Int))
    split
    · rename_i heq
      injection heq with hch
      exact absurd hch hm
    · rename_i heq
      injection heq with hch
      exact absurd hch hp
    · rfl

theorem goAtoi_goItoa_pos (v : Int) (h : 0 < v) : goAtoi (goItoa v) = some v := by
  unfold goItoa
  rw [if_neg (by omega)]
  obtain ⟨h1, h2, _⟩ := natToDigits_spec v.toNat
  rw [goAtoi_mk_digits _ h2 h1, parseDigits_natToDigits]
  simp [Int.toNat_of_nonneg h.le]

/-! ### The generateID fold (C2) -/

theorem foldID_spec :
    ∀ (l : List Task) (a : Int),
      a ≤ l.foldl (fun m t =>
          match goAtoi t.ID with
          | some id => if id > m then id else m
          | none => m) a ∧
      (∀ t ∈ l, ∀ v, goAtoi t.ID = some v →
        v ≤ l.foldl (fun m t =>
          match goAtoi t.ID with
          | some id => if id > m then id else m
          | none => m) a) ∧
      (l.foldl (fun m t =>
          match goAtoi t.ID with
          | some id => if id > m then id else m
          | none => m) a = a ∨
        ∃ t ∈ l, goAtoi t.ID = some (l.foldl (fun m t =>
          match goAtoi t.ID with
          | some id => if id > m then id else m
          | none => m) a))
  | [], a => by simp
  | t :: rest, a => by
    rw [List.foldl_cons]
    cases hg : goAtoi t.ID with
    | none =>
      simp only [hg]
      obtain ⟨ih1, ih2, ih3⟩ := foldID_spec rest a
      refine ⟨ih1, ?_, ?_⟩
      · intro u hu v hv
        rcases List.mem_cons.mp hu with rfl | hu2
        · rw [hg] at hv
          exact Option.noConfusion hv
        · exact ih2 u hu2 v hv
      · rcases ih3 with he | ⟨u, hu, he⟩
        · exact Or.inl he
        · exact Or.inr ⟨u, List.mem_cons.mpr (Or.inr hu), he⟩
    | some id =>
      simp only [hg]
      by_cases hgt : id > a
      · rw [if_pos hgt]
        obtain ⟨ih1, ih2, ih3⟩ := foldID_spec rest id
        refine ⟨le_trans (le_of_lt hgt) ih1, ?_, ?_⟩
        · intro u hu v hv
          rcases List.mem_cons.mp hu with rfl | hu2
          · rw [hg] at hv
            injection hv with hv2
            rw [← hv2]
            exact ih1
          · exact ih2 u hu2 v hv
        · rcases ih3 with he | ⟨u, hu, he⟩
          · exact Or.inr ⟨t, List.mem_cons_self t rest, by rw [hg, he]⟩
          · exact Or.inr ⟨u, List.mem_cons.mpr (Or.inr hu), he⟩
      · rw [if_neg hgt]
        obtain ⟨ih1, ih2, ih3⟩ := foldID_spec rest a
        refine ⟨ih1, ?_, ?_⟩
        · intro u hu v hv
          rcases List.mem_cons.mp hu with rfl | hu2
          · rw [hg] at hv
            injection hv with hv2
            rw [← hv2]
            exact le_trans (by omega) ih1
          · exact ih2 u hu2 v hv
        · rcases ih3 with he | ⟨u, hu, he⟩
          · exact Or.inl he
          · exact Or.inr ⟨u, List.mem_cons.mpr (Or.inr hu), he⟩

theorem maxNumericID_spec (tasks : List Task) :
    0 ≤ maxNumericID tasks ∧
    (∀ t ∈ tasks, ∀ v, goAtoi t.ID = some v → v ≤ maxNumericID tasks) ∧
    (maxNumericID tasks = 0 ∨ ∃ t ∈ tasks, goAtoi t.ID = some (maxNumericID tasks)) := by
  unfold maxNumericID
  exact foldID_spec tasks 0

/-- The task `AddTask` appends, field by field. -/
theorem addTask_shape (s : TaskStore) (task : Task) :
    ∃ t4, (s.AddTask task).1.Tasks = s.Tasks ++ [t4] ∧ (s.AddTask task).2 = t4.ID ∧
      t4.ID = s.generateID ∧
      (task.Status = "" → t4.Status = "pending") ∧ (task.Status ≠ "" → t4.Status = task.Status) ∧
      (task.Blocks = none → t4.Blocks = some []) ∧ (task.Blocks ≠ none → t4.Blocks = task.Blocks) ∧
      (task.BlockedBy = none → t4.BlockedBy = some []) ∧
      (task.BlockedBy ≠ none → t4.BlockedBy = task.BlockedBy) ∧
      t4.Subject = task.Subject := by
  unfold TaskStore.AddTask
  dsimp only
  split_ifs with h1 h2 h3 h4 h5 h6 h7 <;>
    refine ⟨_, rfl, rfl, rfl, ?_, ?_, ?_, ?_, ?_, ?_, rfl⟩ <;> intro hh <;>
      first
        | rfl
        | exact absurd hh (by assumption)
        | exact absurd (by assumption) hh

/-- C2 counterexample: on a store whose only task has ID `"-3"`, the claim
says the assigned ID is the string of `(-3) + 1`, i.e. `"-2"`; the code
assigns `"1"` because the max-ID accumulator starts at 0. -/
theorem addTask_maxid_cx :
    ((TaskStore.mk "p" [{ cwTask1 with ID := "-3" }]).AddTask cwTask2).2 = "1" ∧
    goItoa (-3 + 1) = "-2" ∧
    ((TaskStore.mk "p" [{ cwTask1 with ID := "-3" }]).AddTask cwTask2).2 ≠ goItoa (-3 + 1) := by
  refine ⟨by decide, by decide, by decide⟩

/-- C2 (amended): `AddTask` assigns the decimal rendering of
`max(0, maximum numeric value among parseable existing IDs) + 1` — hence
`"1"` on an empty store — fills in a "pending" status and empty dependency
slices exactly when the caller left them unset, and the assigned ID differs
from every existing task's ID. -/
theorem addTask_assignment (s : TaskStore) (task : Task) :
    ∃ M : Int, 0 ≤ M ∧
      (∀ t ∈ s.Tasks, ∀ v, goAtoi t.ID = some v → v ≤ M) ∧
      (M = 0 ∨ ∃ t ∈ s.Tasks, goAtoi t.ID = some M) ∧
      goAtoi ((s.AddTask task).2) = some (M + 1) ∧
      (s.Tasks = [] → (s.AddTask task).2 = "1") ∧
      (∀ t ∈ s.Tasks, t.ID ≠ (s.AddTask task).2) ∧
      ∃ t4, (s.AddTask task).1.Tasks = s.Tasks ++ [t4] ∧ t4.ID = (s.AddTask task).2 ∧
        (task.Status = "" → t4.Status = "pending") ∧
        (task.Status ≠ "" → t4.Status = task.Status) ∧
        (task.Blocks = none → t4.Blocks = some []) ∧
        (task.Blocks ≠ none → t4.Blocks = task.Blocks) ∧
        (task.BlockedBy = none → t4.BlockedBy = some []) ∧
        (task.BlockedBy ≠ none → t4.BlockedBy = task.BlockedBy) := by
  obtain ⟨m1, m2, m3⟩ := maxNumericID_spec s.Tasks
  obtain ⟨t4, a1, a2, a3, a4, a5, a6, a7, a8, a9, _⟩ := addTask_shape s task
  have hid : (s.AddTask task).2 = goItoa (maxNumericID s.Tasks + 1) := by
    rw [a2, a3]
    rfl
  refine ⟨maxNumericID s.Tasks, m1, m2, m3, ?_, ?_, ?_, t4, a1, a2.symm, a4, a5, a6, a7, a8, a9⟩
  · rw [hid]
    exact goAtoi_goItoa_pos _ (by omega)
  · intro he
    rw [hid]
    have hz : maxNumericID s.Tasks = 0 := by
      rw [he]
      rfl
    rw [hz]
    decide
  · intro t ht he
    have hv := m2 t ht (maxNumericID s.Tasks + 1)
      (by rw [he, hid]; exact goAtoi_goItoa_pos _ (by omega))
    omega

theorem addTask_assignment_witness :
    ∃ M : Int, 0 ≤ M ∧
      (∀ t ∈ cwStore.Tasks, ∀ v, goAtoi t.ID = some v → v ≤ M) ∧
      (M = 0 ∨ ∃ t ∈ cwStore.Tasks, goAtoi t.ID = some M) ∧
      goAtoi ((cwStore.AddTask cwTask1).2) = some (M + 1) ∧
      (cwStore.Tasks = [] → (cwStore.AddTask cwTask1).2 = "1") ∧
      (∀ t ∈ cwStore.Tasks, t.ID ≠ (cwStore.AddTask cwTask1).2) ∧
      ∃ t4, (cwStore.AddTask cwTask1).1.Tasks = cwStore.Tasks ++ [t4] ∧
        t4.ID = (cwStore.AddTask cwTask1).2 ∧
        (cwTask1.Status = "" → t4.Status = "pending") ∧
        (cwTask1.Status ≠ "" → t4.Status = cwTask1.Status) ∧
        (cwTask1.Blocks = none → t4.Blocks = some []) ∧
        (cwTask1.Blocks ≠ none → t4.Blocks = cwTask1.Blocks) ∧
        (cwTask1.BlockedBy = none → t4.BlockedBy = some []) ∧
        (cwTask1.BlockedBy ≠ none → t4.BlockedBy = cwTask1.BlockedBy) :=
  addTask_assignment cwStore cwTask1

/-! ### Name-uniqueness preservation (C9) -/

/-- Setting a position to a group with the same name leaves the name list
unchanged. -/
theorem map_name_set :
    ∀ (l : List TaskGroup) (i : Nat) (g2 : TaskGroup),
      (∀ g0, l[i]? = some g0 → g2.name = g0.name) →
      (l.set i g2).map (fun g => g.name) = l.map (fun g => g.name)
  | [], _, _ => by simp
  | x :: xs, 0, g2 => by
    intro h
    rw [List.set_cons_zero, List.map_cons, List.map_cons, h x (by simp)]
  | x :: xs, i + 1, g2 => by
    intro h
    rw [List.set_cons_succ, List.map_cons, List.map_cons,
      map_name_set xs i g2 (fun g0 hg => h g0 (by simpa using hg))]

/-- `swapOrders` only touches `order` fields: the name list is unchanged. -/
theorem swapOrders_map_name (l : List TaskGroup) (i j : Nat) :
    (swapOrders l i j).map (fun g => g.name) = l.map (fun g => g.name) := by
  unfold swapOrders
  cases hi : l[i]? with
  | none => rfl
  | some gi =>
    cases hj : l[j]? with
    | none => rfl
    | some gj =>
      have hlen : i < l.length := by
        rcases List.getElem?_eq_some_iff.mp hi with ⟨hl, _⟩
        exact hl
      have e1 : ((l.set i { gi with order := gj.order }).set j
            { gj with order := gi.order }).map (fun g => g.name) =
          (l.set i { gi with order := gj.order }).map (fun g => g.name) := by
        apply map_name_set
        intro g0 hg0
        by_cases hij : i = j
        · subst hij
          rw [List.getElem?_set_self hlen] at hg0
          injection hg0 with hh
          rw [← hh]
          rw [hi] at hj
          injection hj with hj2
          rw [hj2]
        · rw [List.getElem?_set_ne hij] at hg0
          rw [hj] at hg0
          injection hg0 with hh
          rw [← hh]
      have e2 : (l.set i { gi with order := gj.order }).map (fun g => g.name) =
          l.map (fun g => g.name) := by
        apply map_name_set
        intro g0 hg0
        rw [hi] at hg0
        injection hg0 with hh
        rw [← hh]
      exact e1.trans e2

theorem deleteGroupList_sublist (name : String) :
    ∀ l : List TaskGroup, (deleteGroupList name l).1.Sublist l
  | [] => by simp [deleteGroupList]
  | g :: rest => by
    unfold deleteGroupList
    by_cases h : g.name = name
    · rw [if_pos h]
      exact List.sublist_cons_self g rest
    · rw [if_neg h]
      exact (deleteGroupList_sublist name rest).cons₂ g

theorem updateGroupList_names_sub (name : String) (upd : TaskGroup) :
    ∀ l : List TaskGroup, ∀ x ∈ (updateGroupList name upd l).1.map (fun g => g.name),
      x = upd.name ∨ x ∈ l.map (fun g => g.name)
  | [] => by simp [updateGroupList]
  | g :: rest => by
    intro x hx
    unfold updateGroupList at hx
    by_cases h : g.name = name
    · rw [if_pos h] at hx
      rcases List.mem_map.mp hx with ⟨u, hu, rfl⟩
      rcases List.mem_cons.mp hu with rfl | hu2
      · exact Or.inl rfl
      · exact Or.inr (List.mem_cons.mpr (Or.inr (List.mem_map_of_mem _ hu2)))
    · rw [if_neg h] at hx
      rcases List.mem_map.mp hx with ⟨u, hu, rfl⟩
      rcases List.mem_cons.mp hu with rfl | hu2
      · exact Or.inr (by simp)
      · rcases updateGroupList_names_sub name upd rest u.name
            (List.mem_map_of_mem _ hu2) with h1 | h2
        · exact Or.inl h1
        · exact Or.inr (List.mem_cons.mpr (Or.inr h2))

theorem updateGroupList_nodup (name : String) (upd : TaskGroup) :
    ∀ l : List TaskGroup, (l.map (fun g => g.name)).Nodup →
      (upd.name = name ∨ upd.name ∉ l.map (fun g => g.name)) →
      ((updateGroupList name upd l).1.map (fun g => g.name)).Nodup
  | [] => by
    intro _ _
    simp [updateGroupList]
  | g :: rest => by
    intro hnd hcond
    rw [List.map_cons, List.nodup_cons] at hnd
    unfold updateGroupList
    by_cases h : g.name = name
    · rw [if_pos h]
      rw [List.map_cons, List.nodup_cons]
      refine ⟨?_, hnd.2⟩
      rcases hcond with hu | hu
      · rw [hu, ← h]
        exact hnd.1
      · intro hc
        exact hu (List.mem_cons.mpr (Or.inr hc))
    · rw [if_neg h]
      rw [List.map_cons, List.nodup_cons]
      constructor
      · intro hc
        rcases updateGroupList_names_sub name upd rest g.name hc with h1 | h2
        · rcases hcond with hu | hu
          · exact h (h1.trans hu)
          · exact hu (List.mem_cons.mpr (Or.inl h1.symm))
        · exact hnd.1 h2
      · refine updateGroupList_nodup name upd rest hnd.2 ?_
        rcases hcond with hu | hu
        · exact Or.inl hu
        · exact Or.inr (fun hc => hu (List.mem_cons.mpr (Or.inr hc)))

/-- Appending a fresh name via `AddGroup` keeps the names nodup. -/
theorem addGroup_nodup (s : GroupStore) (g : TaskGroup)
    (hnd : (s.Groups.map (fun x => x.name)).Nodup)
    (hf : g.name ∉ s.Groups.map (fun x => x.name)) :
    ((s.AddGroup g).Groups.map (fun x => x.name)).Nodup := by
  obtain ⟨g2, h1, h2, _, _, _⟩ := addGroup_shape s g
  rw [h1, List.map_append, List.nodup_append]
  refine ⟨hnd, by simp, ?_⟩
  intro x hx hy
  simp only [List.map_cons, List.map_nil, List.mem_cons, List.not_mem_nil, or_false] at hy
  rw [hy, h2] at hx
  exact hf hx

/-- C9 counterexample: `AddGroup` performs no duplicate-name check, so adding
a group named "A" to a store already holding "A" yields two groups with the
same name. -/
theorem groupNames_unique_cx :
    ¬ ((((GroupStore.mk "p" [TaskGroup.mk "A" 1 "c"]).AddGroup
        (TaskGroup.mk "A" 0 "")).Groups.map (fun g => g.name)).Nodup) := by
  decide

/-- C9 (amended): starting from distinct group names, `DeleteGroup`,
`MoveGroupUp`, `MoveGroupDown` and `EnsureGroupExists` always preserve
distinctness; `AddGroup` preserves it only when the added name is fresh, and
`UpdateGroup` only when the replacement keeps the updated name or carries a
fresh one (the code checks neither, so colliding names slip through). -/
theorem groupNames_unique_pres (s : GroupStore)
    (hnd : (s.Groups.map (fun g => g.name)).Nodup) :
    (∀ name, ((s.DeleteGroup name).1.Groups.map (fun g => g.name)).Nodup) ∧
    (∀ name, ((s.MoveGroupUp name).1.Groups.map (fun g => g.name)).Nodup) ∧
    (∀ name, ((s.MoveGroupDown name).1.Groups.map (fun g => g.name)).Nodup) ∧
    (∀ name, ((s.EnsureGroupExists name).Groups.map (fun g => g.name)).Nodup) ∧
    (∀ g : TaskGroup, g.name ∉ s.Groups.map (fun x => x.name) →
      ((s.AddGroup g).Groups.map (fun x => x.name)).Nodup) ∧
    (∀ name updated, (updated.name = name ∨ updated.name ∉ s.Groups.map (fun x => x.name)) →
      ((s.UpdateGroup name updated).1.Groups.map (fun x => x.name)).Nodup) := by
  refine ⟨?_, ?_, ?_, ?_, ?_, ?_⟩
  · intro name
    exact (((deleteGroupList_sublist name s.Groups).map (fun g => g.name)).nodup hnd)
  · intro name
    unfold GroupStore.MoveGroupUp
    cases hscan : moveUpScan name s.Groups 0 with
    | none => exact hnd
    | some i =>
      have hp := (List.perm_insertionSort groupLE (swapOrders s.Groups (i - 1) i)).map
        (fun g => g.name)
      rw [swapOrders_map_name] at hp
      exact (hp.nodup_iff).mpr hnd
  · intro name
    unfold GroupStore.MoveGroupDown
    cases hscan : moveDownScan name s.Groups.length s.Groups 0 with
    | none => exact hnd
    | some i =>
      have hp := (List.perm_insertionSort groupLE (swapOrders s.Groups i (i + 1))).map
        (fun g => g.name)
      rw [swapOrders_map_name] at hp
      exact (hp.nodup_iff).mpr hnd
  · intro name
    unfold GroupStore.EnsureGroupExists
    by_cases h : name = ""
    · rw [if_pos h]
      exact hnd
    · rw [if_neg h]
      cases hg : s.GetGroup name with
      | some g => exact hnd
      | none =>
        apply addGroup_nodup s _ hnd
        intro hc
        rcases List.mem_map.mp hc with ⟨u, hu, hu2⟩
        unfold GroupStore.GetGroup at hg
        rw [List.find?_eq_none] at hg
        exact hg u hu (by simp [hu2])
  · intro g hf
    exact addGroup_nodup s g hnd hf
  · intro name updated hcond
    exact updateGroupList_nodup name updated s.Groups hnd hcond

theorem groupNames_unique_pres_witness :
    ((((GroupStore.mk "p" [TaskGroup.mk "A" 1 "c", TaskGroup.mk "B" 2 "d"]).DeleteGroup
        "A").1.Groups.map (fun g => g.name)).Nodup) ∧
    ((((GroupStore.mk "p" [TaskGroup.mk "A" 1 "c", TaskGroup.mk "B" 2 "d"]).MoveGroupUp
        "B").1.Groups.map (fun g => g.name)).Nodup) ∧
    ((((GroupStore.mk "p" [TaskGroup.mk "A" 1 "c", TaskGroup.mk "B" 2 "d"]).AddGroup
        (TaskGroup.mk "C" 0 "")).Groups.map (fun x => x.name)).Nodup) ∧
    ((((GroupStore.mk "p" [TaskGroup.mk "A" 1 "c", TaskGroup.mk "B" 2 "d"]).UpdateGroup
        "A" (TaskGroup.mk "Z" 7 "e")).1.Groups.map (fun x => x.name)).Nodup) :=
  ⟨(groupNames_unique_pres _ (by decide)).1 "A",
    (groupNames_unique_pres _ (by decide)).2.1 "B",
    (groupNames_unique_pres _ (by decide)).2.2.2.2.1 (TaskGroup.mk "C" 0 "") (by decide),
    (groupNames_unique_pres _ (by decide)).2.2.2.2.2 "A" (TaskGroup.mk "Z" 7 "e")
      (Or.inr (by decide))⟩

/-! ### Cursor clamping and restoration (C7) -/

theorem clampCursor_spec (len : Nat) (c : Int) :
    (len = 0 → clampCursor len c = 0) ∧
    (0 < len → 0 ≤ clampCursor len c ∧ clampCursor len c < (len : Int)) := by
  unfold clampCursor
  constructor
  · intro h
    subst h
    split_ifs <;> omega
  · intro h
    split_ifs <;> omega

theorem rebuildItems_cursor (m : TasksModel) :
    (rebuildItems m).cursor = clampCursor (rebuildItems m).items.length m.cursor := rfl

theorem findTaskRowIdxFrom_spec (tid : String) :
    ∀ (items : List TaskListItem) (j i : Nat), findTaskRowIdxFrom tid items j = some i →
      ∃ k, i = j + k ∧ ∃ it2, items[k]? = some it2 ∧ it2.isGroup = false ∧
        ∃ t2, it2.task = some t2 ∧ t2.ID = tid
  | [], j, i => by simp [findTaskRowIdxFrom]
  | it :: rest, j, i => by
    intro h
    unfold findTaskRowIdxFrom at h
    by_cases hc : (!it.isGroup &&
        (match it.task with | some t => t.ID == tid | none => false)) = true
    · rw [if_pos hc] at h
      injection h with h2
      rw [Bool.and_eq_true] at hc
      refine ⟨0, by omega, it, by simp, ?_, ?_⟩
      · have := hc.1
        cases hg : it.isGroup
        · rfl
        · rw [hg] at this
          exact absurd this (by decide)
      · cases ht : it.task with
        | none =>
          rw [ht] at hc
          exact absurd hc.2 (by simp)
        | some t2 =>
          rw [ht] at hc
          exact ⟨t2, rfl, by simpa using hc.2⟩
    · rw [if_neg hc] at h
      obtain ⟨k, hk, it2, h1, h2, h3⟩ := findTaskRowIdxFrom_spec tid rest (j + 1) i h
      exact ⟨k + 1, by omega, it2, by simpa using h1, h2, h3⟩

theorem findTaskRowIdx_spec (items : List TaskListItem) (tid : String) (i : Nat)
    (h : findTaskRowIdx items tid = some i) :
    ∃ it2, items[i]? = some it2 ∧ it2.isGroup = false ∧
      ∃ t2, it2.task = some t2 ∧ t2.ID = tid := by
  obtain ⟨k, hk, rest⟩ := findTaskRowIdxFrom_spec tid items 0 i h
  obtain rfl : i = k := by omega
  exact rest

/-- C7: after `rebuildItems` the cursor lies in `[0, len(items)-1]` (0 when
the row list is empty); and when the cursor pointed at a task row before
`ReloadData` and a row with the same task ID exists after the rebuild, the
cursor is set to that row's (first matching) index. -/
theorem cursorClamp_and_restore (m : TasksModel) (ts : TaskStore) (gs : GroupStore) :
    ((rebuildItems m).items = [] → (rebuildItems m).cursor = 0) ∧
    ((rebuildItems m).items ≠ [] →
      0 ≤ (rebuildItems m).cursor ∧
      (rebuildItems m).cursor < ((rebuildItems m).items.length : Int)) ∧
    (∀ (it : TaskListItem) (t : Task),
      m.items[m.cursor.toNat]? = some it → 0 ≤ m.cursor → it.isGroup = false →
      it.task = some t → t.ID ≠ "" →
      ∀ i, findTaskRowIdx (rebuildItems { m with taskStore := ts, groupStore := gs }).items
          t.ID = some i →
        (ReloadData m ts gs).cursor = (i : Int) ∧
        ∃ it2, ((rebuildItems { m with taskStore := ts, groupStore := gs }).items)[i]? =
            some it2 ∧ it2.isGroup = false ∧ ∃ t2, it2.task = some t2 ∧ t2.ID = t.ID) := by
  refine ⟨?_, ?_, ?_⟩
  · intro h
    rw [rebuildItems_cursor, h]
    exact (clampCursor_spec 0 m.cursor).1 rfl
  · intro h
    rw [rebuildItems_cursor]
    exact (clampCursor_spec _ m.cursor).2 (by
      cases he : (rebuildItems m).items
      · exact absurd he h
      · simp [he])
  · intro it t hget hpos hgroup htask hne i hfind
    have hlen : m.cursor.toNat < m.items.length := (List.getElem?_eq_some_iff.mp hget).1
    have hcur : currentTaskID { m with taskStore := ts, groupStore := gs } = t.ID := by
      unfold currentTaskID
      dsimp only
      rw [if_pos ⟨hpos, by omega⟩]
      simp [hget, hgroup, htask]
    refine ⟨?_, findTaskRowIdx_spec _ _ _ hfind⟩
    unfold ReloadData
    dsimp only
    rw [hcur]
    have hbea : (t.ID != "") = true := by
      simp [hne]
    rw [if_pos hbea, hfind]

def cwHeaderItem : TaskListItem := { isGroup := true, groupName := "Uncategorized", task := none }

def cwRowItem1 : TaskListItem := { isGroup := false, groupName := "", task := some cwTask1 }

def cwRowItem2 : TaskListItem := { isGroup := false, groupName := "", task := some cwTask2 }

def cwModel : TasksModel :=
  { projectName := "p", taskStore := cwStore, groupStore := GroupStore.mk "p" [],
    cursor := 2, items := [cwHeaderItem, cwRowItem1, cwRowItem2],
    statusFilter := "", groupFilter := "", hideCompleted := false, searchValue := "",
    collapsedGroups := fun _ => false }

def cwModel2 : TasksModel :=
  { cwModel with taskStore := TaskStore.mk "p" [cwTask2], groupStore := GroupStore.mk "p" [] }

theorem cursorClamp_and_restore_witness :
    ((rebuildItems cwModel).items ≠ [] →
      0 ≤ (rebuildItems cwModel).cursor ∧
      (rebuildItems cwModel).cursor < ((rebuildItems cwModel).items.length : Int)) ∧
    ((ReloadData cwModel (TaskStore.mk "p" [cwTask2]) (GroupStore.mk "p" [])).cursor = (1 : Int) ∧
      ∃ it2,
        ((rebuildItems cwModel2).items)[(1 : Nat)]? = some it2 ∧
        it2.isGroup = false ∧ ∃ t2, it2.task = some t2 ∧ t2.ID = cwTask2.ID) :=
  ⟨(cursorClamp_and_restore cwModel cwStore (GroupStore.mk "p" [])).2.1,
    (cursorClamp_and_restore cwModel (TaskStore.mk "p" [cwTask2]) (GroupStore.mk "p" [])).2.2
      cwRowItem2 cwTask2 (by decide) (by decide) (by decide) (by decide) (by decide) 1
      (by decide)⟩

/-! ### Move operations (C4) -/

theorem getElem?_append_len {α : Type} (pre l2 : List α) (k : Nat) :
    (pre ++ l2)[pre.length + k]? = l2[k]? := by
  rw [List.getElem?_append_right (by omega),
    show pre.length + k - pre.length = k from by omega]

theorem set_append_len {α : Type} (pre l2 : List α) (k : Nat) (v : α) :
    (pre ++ l2).set (pre.length + k) v = pre ++ l2.set k v := by
  rw [List.set_append, if_neg (by omega),
    show pre.length + k - pre.length = k from by omega]

/-- Swapping the orders of the two middle elements of a decomposed list. -/
theorem swapOrders_adj (pre post : List TaskGroup) (x y : TaskGroup) :
    swapOrders (pre ++ x :: y :: post) pre.length (pre.length + 1) =
      pre ++ { x with order := y.order } :: { y with order := x.order } :: post := by
  unfold swapOrders
  have hx : (pre ++ x :: y :: post)[pre.length]? = some x := by
    have h0 := getElem?_append_len pre (x :: y :: post) 0
    simpa using h0
  have hy : (pre ++ x :: y :: post)[pre.length + 1]? = some y := by
    have h1 := getElem?_append_len pre (x :: y :: post) 1
    simpa using h1
  simp only [hx, hy]
  have e1 : (pre ++ x :: y :: post).set pre.length { x with order := y.order } =
      pre ++ { x with order := y.order } :: y :: post := by
    have h0 := set_append_len pre (x :: y :: post) 0 { x with order := y.order }
    simpa using h0
  rw [e1]
  have e2 := set_append_len pre ({ x with order := y.order } :: y :: post) 1
    { y with order := x.order }
  simpa using e2

theorem pairwise_groupLT_iff (l : List TaskGroup) :
    l.Pairwise groupLT ↔ (l.map (fun g => g.order)).Pairwise (fun a b => a < b) := by
  rw [List.pairwise_map]
  exact Iff.rfl

theorem pairwise_lt_of_le_nodup :
    ∀ l : List TaskGroup, l.Pairwise groupLE → (l.map (fun g => g.order)).Nodup →
      l.Pairwise groupLT
  | [] => by simp
  | g :: rest => by
    intro hle hnd
    rw [List.pairwise_cons] at hle ⊢
    rw [List.map_cons, List.nodup_cons] at hnd
    refine ⟨?_, pairwise_lt_of_le_nodup rest hle.2 hnd.2⟩
    intro b hb
    have h1 := hle.1 b hb
    have h2 : g.order ≠ b.order := fun he => hnd.1 (by rw [he]; exact List.mem_map_of_mem _ hb)
    exact lt_of_le_of_ne h1 h2

/-- Sorting a strictly order-sorted list in which the two middle elements
have had their orders exchanged transposes exactly those two elements. -/
theorem sortGroups_transposed (pre post : List TaskGroup) (a b : TaskGroup)
    (hs : (pre ++ a :: b :: post).Pairwise groupLT) :
    sortGroupsByOrder
        (pre ++ { a with order := b.order } :: { b with order := a.order } :: post) =
      pre ++ { b with order := a.order } :: { a with order := b.order } :: post := by
  have hmap : (pre ++ { b with order := a.order } :: { a with order := b.order } :: post).map
        (fun g => g.order) =
      (pre ++ a :: b :: post).map (fun g => g.order) := by
    simp
  have htgt : (pre ++ { b with order := a.order } :: { a with order := b.order } :: post).Pairwise
      groupLT := by
    rw [pairwise_groupLT_iff, hmap, ← pairwise_groupLT_iff]
    exact hs
  have hperm : (sortGroupsByOrder
        (pre ++ { a with order := b.order } :: { b with order := a.order } :: post)).Perm
      (pre ++ { b with order := a.order } :: { a with order := b.order } :: post) :=
    (List.perm_insertionSort groupLE _).trans
      (List.Perm.append_left pre
        (List.Perm.swap { b with order := a.order } { a with order := b.order } post))
  have hsortedLE := List.sorted_insertionSort groupLE
    (pre ++ { a with order := b.order } :: { b with order := a.order } :: post)
  have hnd : ((sortGroupsByOrder
        (pre ++ { a with order := b.order } :: { b with order := a.order } :: post)).map
      (fun g => g.order)).Nodup := by
    have h1 : ((pre ++ { b with order := a.order } :: { a with order := b.order } :: post).map
        (fun g => g.order)).Nodup := by
      rw [hmap]
      have h2 := (pairwise_groupLT_iff _).mp hs
      exact h2.imp (fun hlt => ne_of_lt hlt)
    exact ((hperm.map (fun g => g.order)).nodup_iff).mpr h1
  exact List.eq_of_perm_of_sorted hperm
    (pairwise_lt_of_le_nodup _ hsortedLE hnd) htgt

theorem moveUpScan_no_name (name : String) :
    ∀ (l : List TaskGroup) (i0 : Nat), (∀ g ∈ l, g.name ≠ name) → moveUpScan name l i0 = none
  | [], _ => fun _ => rfl
  | g :: rest, i0 => by
    intro h
    unfold moveUpScan
    rw [if_neg (fun hc => h g (by simp) hc.1)]
    exact moveUpScan_no_name name rest (i0 + 1) (fun u hu => h u (by simp [hu]))

theorem moveUpScan_found (name : String) :
    ∀ (l1 : List TaskGroup) (g : TaskGroup) (l2 : List TaskGroup) (i0 : Nat),
      (∀ p ∈ l1, p.name ≠ name) → g.name = name → 0 < i0 + l1.length →
      moveUpScan name (l1 ++ g :: l2) i0 = some (i0 + l1.length)
  | [], g, l2, i0 => by
    intro _ hg hpos
    show moveUpScan name (g :: l2) i0 = some (i0 + [].length)
    unfold moveUpScan
    rw [if_pos ⟨hg, by simpa using hpos⟩]
    simp
  | p :: rest, g, l2, i0 => by
    intro h hg _
    show moveUpScan name (p :: (rest ++ g :: l2)) i0 = _
    unfold moveUpScan
    rw [if_neg (fun hc => h p (by simp) hc.1)]
    rw [moveUpScan_found name rest g l2 (i0 + 1) (fun u hu => h u (by simp [hu])) hg (by omega)]
    congr 1
    simp only [List.length_cons]
    omega

theorem moveUpScan_head (name : String) (g : TaskGroup) (rest : List TaskGroup)
    (hg : g.name = name) (hr : ∀ p ∈ rest, p.name ≠ name) :
    moveUpScan name (g :: rest) 0 = none := by
  unfold moveUpScan
  rw [if_neg (fun hc => absurd hc.2 (by omega))]
  exact moveUpScan_no_name name rest 1 hr

theorem moveDownScan_no_name (name : String) (n : Nat) :
    ∀ (l : List TaskGroup) (i0 : Nat), (∀ g ∈ l, g.name ≠ name) →
      moveDownScan name n l i0 = none
  | [], _ => fun _ => rfl
  | g :: rest, i0 => by
    intro h
    unfold moveDownScan
    rw [if_neg (fun hc => h g (by simp) hc.1)]
    exact moveDownScan_no_name name n rest (i0 + 1) (fun u hu => h u (by simp [hu]))

theorem moveDownScan_found (name : String) (n : Nat) :
    ∀ (l1 : List TaskGroup) (g : TaskGroup) (l2 : List TaskGroup) (i0 : Nat),
      (∀ p ∈ l1, p.name ≠ name) → g.name = name → i0 + l1.length + 1 < n →
      moveDownScan name n (l1 ++ g :: l2) i0 = some (i0 + l1.length)
  | [], g, l2, i0 => by
    intro _ hg hbound
    show moveDownScan name n (g :: l2) i0 = some (i0 + [].length)
    unfold moveDownScan
    rw [if_pos ⟨hg, by simpa using hbound⟩]
    simp
  | p :: rest, g, l2, i0 => by
    intro h hg hbound
    show moveDownScan name n (p :: (rest ++ g :: l2)) i0 = _
    unfold moveDownScan
    rw [if_neg (fun hc => h p (by simp) hc.1)]
    rw [moveDownScan_found name n rest g l2 (i0 + 1) (fun u hu => h u (by simp [hu])) hg
      (by simp only [List.length_cons] at hbound; omega)]
    congr 1
    simp only [List.length_cons]
    omega

theorem moveDownScan_last (name : String) (n : Nat) :
    ∀ (front : List TaskGroup) (g : TaskGroup) (i0 : Nat),
      (∀ p ∈ front, p.name ≠ name) → g.name = name → ¬(i0 + front.length + 1 < n) →
      moveDownScan name n (front ++ [g]) i0 = none
  | [], g, i0 => by
    intro _ hg hbound
    show moveDownScan name n (g :: []) i0 = none
    unfold moveDownScan
    rw [if_neg (fun hc => hbound (by simpa using hc.2))]
    rfl
  | p :: front, g, i0 => by
    intro h hg hbound
    show moveDownScan name n (p :: (front ++ [g])) i0 = none
    unfold moveDownScan
    rw [if_neg (fun hc => h p (by simp) hc.1)]
    exact moveDownScan_last name n front g (i0 + 1) (fun u hu => h u (by simp [hu])) hg
      (by simp only [List.length_cons] at hbound; omega)

theorem nodup_names_split :
    ∀ (l1 : List TaskGroup) (g : TaskGroup) (l2 : List TaskGroup),
      ((l1 ++ g :: l2).map (fun x => x.name)).Nodup →
      (∀ p ∈ l1, p.name ≠ g.name) ∧ (∀ p ∈ l2, p.name ≠ g.name) := by
  intro l1 g l2 h
  rw [List.map_append, List.nodup_append] at h
  obtain ⟨h1, h2, h3⟩ := h
  rw [List.map_cons, List.nodup_cons] at h2
  constructor
  · intro p hp he
    exact h3 (List.mem_map_of_mem _ hp)
      (by rw [List.map_cons]; exact List.mem_cons.mpr (Or.inl he))
  · intro p hp he
    exact h2.1 (by rw [← he]; exact List.mem_map_of_mem _ hp)

/-- `MoveGroupUp` on the named middle element of a strictly sorted store
with distinct names: the element and its predecessor transpose. -/
theorem moveGroupUp_mid (s : GroupStore) (pre post : List TaskGroup) (x y : TaskGroup)
    (hdec : s.Groups = pre ++ x :: y :: post)
    (hnd : (s.Groups.map (fun g => g.name)).Nodup)
    (hs : s.Groups.Pairwise groupLT) :
    s.MoveGroupUp y.name =
      ({ s with Groups :=
          pre ++ { y with order := x.order } :: { x with order := y.order } :: post }, true) := by
  have hd2 : s.Groups = (pre ++ [x]) ++ y :: post := by rw [hdec]; simp
  have hsplit : ∀ p ∈ pre ++ [x], p.name ≠ y.name :=
    (nodup_names_split (pre ++ [x]) y post (by rw [← hd2]; exact hnd)).1
  have hscan : moveUpScan y.name s.Groups 0 = some (pre.length + 1) := by
    rw [hd2]
    have h0 := moveUpScan_found y.name (pre ++ [x]) y post 0 hsplit rfl (by simp)
    simpa using h0
  unfold GroupStore.MoveGroupUp
  rw [hscan]
  show ({ s with Groups :=
      sortGroupsByOrder (swapOrders s.Groups (pre.length + 1 - 1) (pre.length + 1)) }, true) = _
  rw [show pre.length + 1 - 1 = pre.length from by omega, hdec, swapOrders_adj,
    sortGroups_transposed pre post x y (hdec ▸ hs)]

/-- `MoveGroupDown` on the named middle element of a strictly sorted store
with distinct names: the element and its successor transpose. -/
theorem moveGroupDown_mid (s : GroupStore) (pre post : List TaskGroup) (x y : TaskGroup)
    (hdec : s.Groups = pre ++ x :: y :: post)
    (hnd : (s.Groups.map (fun g => g.name)).Nodup)
    (hs : s.Groups.Pairwise groupLT) :
    s.MoveGroupDown x.name =
      ({ s with Groups :=
          pre ++ { y with order := x.order } :: { x with order := y.order } :: post }, true) := by
  have hsplit : ∀ p ∈ pre, p.name ≠ x.name :=
    (nodup_names_split pre x (y :: post) (by rw [← hdec]; exact hnd)).1
  have hscan : moveDownScan x.name s.Groups.length s.Groups 0 = some pre.length := by
    rw [hdec]
    have h0 := moveDownScan_found x.name (pre ++ x :: y :: post).length pre x (y :: post) 0
      hsplit rfl (by simp)
    simpa using h0
  unfold GroupStore.MoveGroupDown
  rw [hscan]
  show ({ s with Groups :=
      sortGroupsByOrder (swapOrders s.Groups pre.length (pre.length + 1)) }, true) = _
  rw [hdec, swapOrders_adj, sortGroups_transposed pre post x y (hdec ▸ hs)]

/-- C4 counterexample: the claim quantifies over every `GroupStore`, but the
move/re-sort pair only round-trips on stores whose groups are sorted by
order.  With groups A(order 5), B(order 1), C(order 3) — names distinct, B
at the non-boundary middle position — `MoveGroupUp "B"` re-sorts the whole
list to [A(1), C(3), B(5)] and the following `MoveGroupDown "B"` is a no-op
(B is now last), so the original order is not restored. -/
theorem moveGroup_roundtrip_cx :
    (((GroupStore.mk "p" [TaskGroup.mk "A" 5 "c", TaskGroup.mk "B" 1 "c",
        TaskGroup.mk "C" 3 "c"]).MoveGroupUp "B").1.MoveGroupDown "B").1 ≠
      GroupStore.mk "p" [TaskGroup.mk "A" 5 "c", TaskGroup.mk "B" 1 "c",
        TaskGroup.mk "C" 3 "c"] := by
  decide

/-- C4 (amended): with distinct group names, `MoveGroupUp` on the first
group and `MoveGroupDown` on the last return false and leave the store
unchanged; and provided the groups are sorted by strictly increasing order
values (the invariant maintained by loading and by the moves themselves),
Up-then-Down and Down-then-Up on a non-boundary group restore the original
store. -/
theorem moveGroup_boundary_roundtrip (s : GroupStore)
    (hnd : (s.Groups.map (fun g => g.name)).Nodup) :
    (∀ g rest, s.Groups = g :: rest → s.MoveGroupUp g.name = (s, false)) ∧
    (∀ front g, s.Groups = front ++ [g] → s.MoveGroupDown g.name = (s, false)) ∧
    (s.Groups.Pairwise groupLT →
      ∀ pre x y post, s.Groups = pre ++ x :: y :: post →
        ((s.MoveGroupUp y.name).1.MoveGroupDown y.name).1 = s ∧
        ((s.MoveGroupDown x.name).1.MoveGroupUp x.name).1 = s) := by
  refine ⟨?_, ?_, ?_⟩
  · intro g rest hdec
    have hr : ∀ p ∈ rest, p.name ≠ g.name :=
      (nodup_names_split [] g rest (by rw [← show [] ++ g :: rest = g :: rest from rfl] at hdec; rw [← hdec]; exact hnd)).2
    unfold GroupStore.MoveGroupUp
    rw [hdec, moveUpScan_head g.name g rest rfl hr]
  · intro front g hdec
    have hf : ∀ p ∈ front, p.name ≠ g.name :=
      (nodup_names_split front g [] (by rw [← show front ++ g :: [] = front ++ [g] from rfl] at hdec; rw [← hdec]; exact hnd)).1
    unfold GroupStore.MoveGroupDown
    rw [hdec, moveDownScan_last g.name (front ++ [g]).length front g 0 hf rfl (by simp)]
  · intro hsorted pre x y post hdec
    have hnd1 : ((pre ++ { y with order := x.order } :: { x with order := y.order } :: post).map
        (fun g => g.name)).Nodup := by
      have hp : ((pre ++ { y with order := x.order } :: { x with order := y.order } :: post).map
            (fun g => g.name)).Perm
          ((pre ++ x :: y :: post).map (fun g => g.name)) := by
        rw [List.map_append, List.map_append]
        exact List.Perm.append_left _ (List.Perm.swap x.name y.name _)
      exact hp.nodup_iff.mpr (hdec ▸ hnd)
    have hlt1 : (pre ++ { y with order := x.order } :: { x with order := y.order } :: post).Pairwise
        groupLT := by
      rw [pairwise_groupLT_iff]
      have hmap : (pre ++ { y with order := x.order } :: { x with order := y.order } :: post).map
            (fun g => g.order) =
          (pre ++ x :: y :: post).map (fun g => g.order) := by
        simp
      rw [hmap, ← pairwise_groupLT_iff]
      exact hdec ▸ hsorted
    constructor
    · have h1 := moveGroupUp_mid s pre post x y hdec hnd hsorted
      rw [h1]
      have h2 : ({ s with Groups :=
            pre ++ { y with order := x.order } :: { x with order := y.order } :: post } :
              GroupStore).MoveGroupDown y.name =
          ({ s with Groups := pre ++ x :: y :: post }, true) :=
        moveGroupDown_mid _ pre post { y with order := x.order } { x with order := y.order }
          rfl hnd1 hlt1
      rw [h2]
      show ({ s with Groups := pre ++ x :: y :: post } : GroupStore) = s
      rw [← hdec]
    · have h1 := moveGroupDown_mid s pre post x y hdec hnd hsorted
      rw [h1]
      have h2 : ({ s with Groups :=
            pre ++ { y with order := x.order } :: { x with order := y.order } :: post } :
              GroupStore).MoveGroupUp x.name =
          ({ s with Groups := pre ++ x :: y :: post }, true) :=
        moveGroupUp_mid _ pre post { y with order := x.order } { x with order := y.order }
          rfl hnd1 hlt1
      rw [h2]
      show ({ s with Groups := pre ++ x :: y :: post } : GroupStore) = s
      rw [← hdec]

theorem moveGroup_boundary_roundtrip_witness :
    ((GroupStore.mk "p" [TaskGroup.mk "A" 1 "c", TaskGroup.mk "B" 2 "c",
        TaskGroup.mk "C" 3 "c"]).MoveGroupUp "A" =
      (GroupStore.mk "p" [TaskGroup.mk "A" 1 "c", TaskGroup.mk "B" 2 "c",
        TaskGroup.mk "C" 3 "c"], false)) ∧
    ((GroupStore.mk "p" [TaskGroup.mk "A" 1 "c", TaskGroup.mk "B" 2 "c",
        TaskGroup.mk "C" 3 "c"]).MoveGroupDown "C" =
      (GroupStore.mk "p" [TaskGroup.mk "A" 1 "c", TaskGroup.mk "B" 2 "c",
        TaskGroup.mk "C" 3 "c"], false)) ∧
    ((((GroupStore.mk "p" [TaskGroup.mk "A" 1 "c", TaskGroup.mk "B" 2 "c",
        TaskGroup.mk "C" 3 "c"]).MoveGroupUp "B").1.MoveGroupDown "B").1 =
      GroupStore.mk "p" [TaskGroup.mk "A" 1 "c", TaskGroup.mk "B" 2 "c",
        TaskGroup.mk "C" 3 "c"]) ∧
    ((((GroupStore.mk "p" [TaskGroup.mk "A" 1 "c", TaskGroup.mk "B" 2 "c",
        TaskGroup.mk "C" 3 "c"]).MoveGroupDown "A").1.MoveGroupUp "A").1 =
      GroupStore.mk "p" [TaskGroup.mk "A" 1 "c", TaskGroup.mk "B" 2 "c",
        TaskGroup.mk "C" 3 "c"]) :=
  ⟨(moveGroup_boundary_roundtrip _ (by decide)).1 (TaskGroup.mk "A" 1 "c")
      [TaskGroup.mk "B" 2 "c", TaskGroup.mk "C" 3 "c"] rfl,
    (moveGroup_boundary_roundtrip _ (by decide)).2.1
      [TaskGroup.mk "A" 1 "c", TaskGroup.mk "B" 2 "c"] (TaskGroup.mk "C" 3 "c") rfl,
    ((moveGroup_boundary_roundtrip _ (by decide)).2.2 (by decide)
      [] (TaskGroup.mk "A" 1 "c") (TaskGroup.mk "B" 2 "c")
      [TaskGroup.mk "C" 3 "c"] rfl).1,
    ((moveGroup_boundary_roundtrip _ (by decide)).2.2 (by decide)
      [] (TaskGroup.mk "A" 1 "c") (TaskGroup.mk "B" 2 "c")
      [TaskGroup.mk "C" 3 "c"] rfl).2⟩

end Cctasks
